import Mathlib

/-!
Shallow embedding of `src/main.py` (a Notepad++ theme-template generator) and
proofs about it.

The Python program parses a "stylers" XML document, applies configured color
rules (`Style` records loaded from a YAML file) onto `WordsStyle` and
`WidgetStyle` leaf elements, writes the updated tree, and offers auxiliary
reporting/formatting commands.

Embedding conventions:
* An XML element (`xml.etree.ElementTree.Element`) is `Element`: a tag, an
  attribute dictionary (modelled as an association list), and a list of child
  elements.
* Python `None` becomes `Option.none`; a `str | None` value is `Option String`.
* Raising `ValueError` (which the spec's taxonomy splits into
  `ValidationError` for style-rule problems and `StructureError` for missing
  XML sections) becomes returning `Except.error` with the matching `Err`
  constructor; `Except.ok` is normal return.  A build that returns
  `Except.error` never reaches the final `tree.write`, so no output document
  is produced.
* Python string comparison (used by `sorted`) is code-point-wise
  lexicographic comparison; it is embedded as `lexLe` on the character lists
  of the strings, and proved equivalent to Mathlib's linear order on
  `String` (`strLe_eq_true_iff`).  `c.startswith("$")` is embedded as a test
  on the first character of `c`.
* The parsed YAML configuration file is modelled at the level of its parsed
  shape (`ConfigData`, `RawStyleRecord`): YAML byte-level encode/decode of
  plain scalars and sequences is taken as the identity on that shape.
-/

/-- Error taxonomy of the spec; the Python code raises `ValueError` for the
first two and distinct exception types for the rest. -/
inductive Err where
  | validationError
  | structureError
  | parseError
  | fileError
  deriving DecidableEq, Repr

/-- Code-point-wise lexicographic `≤` on character lists, as Python compares
strings. -/
def lexLe : List Char → List Char → Bool
  | [], _ => true
  | _ :: _, [] => false
  | a :: as, b :: bs => if a < b then true else if b < a then false else lexLe as bs

/-- Python `a <= b` on strings: lexicographic comparison of their characters. -/
def strLe (a b : String) : Bool :=
  lexLe a.data b.data

/-- Embedding of Python `sorted(set(l))` for lists of strings: drop duplicate
elements, then sort ascending by code-point order. -/
def sortedSet (l : List String) : List String :=
  l.dedup.insertionSort (fun a b => strLe a b = true)

/-- The `Style` dataclass of `main.py`: a list of style names and two optional
palette-variable colors. -/
structure Style where
  names : List String
  fgColor : Option String := none
  bgColor : Option String := none
  deriving DecidableEq, Repr

/-- Python truthiness test `if c and c.startswith("$") is False` on an optional
string `c`: true exactly when the color is present, non-empty and its first
character is not the `$` sentinel. -/
def badColor : Option String → Bool
  | none => false
  | some c => c != "" && c.data.head? != some '$'

/-- `Style.__post_init__` as a smart constructor: the four validation checks of
`main.py` lines 25-32 in order, then the normalization
`self.names = sorted(set(self.names))` of line 34. -/
def mkStyle (names : List String) (fgColor bgColor : Option String) :
    Except Err Style :=
  if names.isEmpty then .error .validationError
  else if fgColor.isNone && bgColor.isNone then .error .validationError
  else if badColor fgColor then .error .validationError
  else if badColor bgColor then .error .validationError
  else .ok { names := sortedSet names, fgColor := fgColor, bgColor := bgColor }

/-- Lookup in an attribute dictionary (Python `element.get(key)`). -/
def getPair : List (String × String) → String → Option String
  | [], _ => none
  | (k', v') :: rest, k => if k' == k then some v' else getPair rest k

/-- Assignment in an attribute dictionary (Python `element.set(key, value)`):
replace the value at an existing key in place, or append a new pair. -/
def setPair : List (String × String) → String → String → List (String × String)
  | [], k, v => [(k, v)]
  | (k', v') :: rest, k, v =>
    if k' == k then (k, v) :: rest else (k', v') :: setPair rest k v

/-- An XML element as in `xml.etree.ElementTree`: a tag, an attribute
dictionary, and a list of child elements. -/
inductive Element where
  | mk (tag : String) (attrs : List (String × String)) (children : List Element)

def Element.tag : Element → String
  | .mk t _ _ => t

def Element.attrs : Element → List (String × String)
  | .mk _ a _ => a

def Element.children : Element → List Element
  | .mk _ _ c => c

/-- Python `element.get(key)`. -/
def Element.getAttr (e : Element) (k : String) : Option String :=
  getPair e.attrs k

/-- Python `element.set(key, value)`. -/
def Element.setAttr (e : Element) (k v : String) : Element :=
  .mk e.tag (setPair e.attrs k v) e.children

/-- Python `element.find(tag)`: the first direct child with the given tag. -/
def Element.find (e : Element) (t : String) : Option Element :=
  e.children.find? (fun c => c.tag == t)

/-- Python `element.findall(tag)`: all direct children with the given tag. -/
def Element.findall (e : Element) (t : String) : List Element :=
  e.children.filter (fun c => c.tag == t)

/-- `update_fg_bg_color` of `main.py` lines 37-66: if the element's `name`
attribute equals `style_name`, set the `fgColor` / `bgColor` attributes to the
non-`None` new colors; otherwise only log a warning (diagnostics are not
modelled) and leave the element as is.  Returns the element. -/
def update_fg_bg_color (element : Element) (style_name : String)
    (new_fg_color new_bg_color : Option String) : Element :=
  if element.getAttr "name" == some style_name then
    let e₁ :=
      match new_fg_color with
      | some f => element.setAttr "fgColor" f
      | none => element
    match new_bg_color with
    | some b => e₁.setAttr "bgColor" b
    | none => e₁
  else
    element

/-- `get_lexer_styles` (lines 82-93): the `LexerStyles` child of the root, or
a structure error (`ValueError` in the code) when absent. -/
def get_lexer_styles (root : Element) : Except Err Element :=
  match root.find "LexerStyles" with
  | some e => .ok e
  | none => .error .structureError

/-- `get_global_styles` (lines 96-107). -/
def get_global_styles (root : Element) : Except Err Element :=
  match root.find "GlobalStyles" with
  | some e => .ok e
  | none => .error .structureError

/-- `get_lexer_types` (lines 110-118). -/
def get_lexer_types (lexer_styles : Element) : List Element :=
  lexer_styles.findall "LexerType"

/-- `get_words_styles` (lines 121-129). -/
def get_words_styles (lexer_type : Element) : List Element :=
  lexer_type.findall "WordsStyle"

/-- `get_widget_styles` (lines 132-140). -/
def get_widget_styles (global_styles : Element) : List Element :=
  global_styles.findall "WidgetStyle"

/-- The innermost loop of `create_or_update_template`: apply one configured
style, one name at a time, to one leaf element. -/
def applyOneStyle (s : Style) (e : Element) : Element :=
  s.names.foldl (fun e' n => update_fg_bg_color e' n s.fgColor s.bgColor) e

/-- The two nested inner loops of `create_or_update_template` (lines 249-256
and 262-269): iterate all configured styles and all their names over one leaf
element. -/
def applyStylesToLeaf (styles : List Style) (leaf : Element) : Element :=
  styles.foldl (fun e s => applyOneStyle s e) leaf

/-- Does the element's `name` attribute equal one of the style's names? -/
def matchesStyle (e : Element) (s : Style) : Bool :=
  s.names.any (fun n => e.getAttr "name" == some n)

/-- Last-writer-wins accumulation of optional colors, in configuration order:
each present color overwrites the accumulator, each absent one leaves it. -/
def finalColor (orig : Option String) (cs : List (Option String)) :
    Option String :=
  cs.foldl (fun acc c => c.or acc) orig

/-- Map `f` over exactly those children carrying tag `t` (the build mutates,
in place, every element returned by `findall(t)` and nothing else). -/
def Element.mapChildrenWithTag (e : Element) (t : String)
    (f : Element → Element) : Element :=
  .mk e.tag e.attrs (e.children.map fun c => if c.tag == t then f c else c)

/-- Replace the first child carrying tag `t` by its image under `f` (the build
mutates, in place, the subtree that `find(t)` returned). -/
def replaceFirstWithTag (t : String) (f : Element → Element) :
    List Element → List Element
  | [] => []
  | c :: cs => if c.tag == t then f c :: cs else c :: replaceFirstWithTag t f cs

def Element.updateFirstChildWithTag (e : Element) (t : String)
    (f : Element → Element) : Element :=
  .mk e.tag e.attrs (replaceFirstWithTag t f e.children)

/-- The per-`LexerType` loop of `create_or_update_template` (lines 246-256). -/
def updateLexerType (styles : List Style) (lexer_type : Element) : Element :=
  lexer_type.mapChildrenWithTag "WordsStyle" (applyStylesToLeaf styles)

/-- The lexer-styles half of the build (lines 244-256). -/
def updateLexerStyles (styles : List Style) (lexer_styles : Element) : Element :=
  lexer_styles.mapChildrenWithTag "LexerType" (updateLexerType styles)

/-- The global-styles half of the build (lines 259-269). -/
def updateGlobalStyles (styles : List Style) (global_styles : Element) :
    Element :=
  global_styles.mapChildrenWithTag "WidgetStyle" (applyStylesToLeaf styles)

/-- `create_or_update_template` (lines 224-278), after the configuration has
been loaded and the source XML parsed into `root`: locate `LexerStyles`
(failing with a structure error when absent), update every `WordsStyle` leaf
of every `LexerType` in place, locate `GlobalStyles` (failing when absent),
update every `WidgetStyle` leaf, and return the tree that is then serialized
to the target file.  An `Except.error` result is raised before `tree.write`
runs, so no target file is created or overwritten in that case. -/
def create_or_update_template (styles : List Style) (root : Element) :
    Except Err Element :=
  match get_lexer_styles root with
  | .error e => .error e
  | .ok _ =>
    let root₁ := root.updateFirstChildWithTag "LexerStyles"
      (updateLexerStyles styles)
    match get_global_styles root₁ with
    | .error e => .error e
    | .ok _ =>
      .ok (root₁.updateFirstChildWithTag "GlobalStyles"
        (updateGlobalStyles styles))

/-- One parsed record of the `styles` sequence in the YAML configuration;
every field is read with `dict.get`, so each may be missing. -/
structure RawStyleRecord where
  names : Option (List String)
  fgColor : Option String
  bgColor : Option String

/-- The parsed top-level YAML mapping; the `styles` key may be missing
(`config_data.get("styles", [])`). -/
structure ConfigData where
  styles : Option (List RawStyleRecord)

/-- `load_styles_from_config` (lines 181-200), after the YAML text has been
parsed into `cfg`: construct a `Style` from every record of the `styles`
sequence, defaulting a missing `styles` key to the empty sequence and a
missing `names` key to the empty list, and propagating validation errors. -/
def load_styles_from_config (cfg : ConfigData) : Except Err (List Style) :=
  (cfg.styles.getD []).mapM
    (fun r => mkStyle (r.names.getD []) r.fgColor r.bgColor)

/-- The record `asdict(style)` writes for one style: every field present,
`None` serialized as YAML null and read back as a missing value. -/
def styleRecord (s : Style) : RawStyleRecord :=
  { names := some s.names, fgColor := s.fgColor, bgColor := s.bgColor }

/-- `format_config_file` (lines 203-221): serialize the styles back to the
YAML shape via `asdict`; the result models the document written to the
configuration path. -/
def format_config_file (styles : List Style) : ConfigData :=
  { styles := some (styles.map styleRecord) }

/-- A style value reachable from the constructor: rebuilding it from its own
fields succeeds and returns it unchanged. -/
def validStyle (s : Style) : Prop :=
  mkStyle s.names s.fgColor s.bgColor = .ok s

/-- The style a saved record reads back as, when its validation succeeds. -/
def recordToStyle (r : RawStyleRecord) : Style :=
  { names := r.names.getD [], fgColor := r.fgColor, bgColor := r.bgColor }

/-- The names collected by `get_distinct_style_names` before sorting: the
`name` attribute of every `WordsStyle` leaf of every `LexerType`.  The Python
code collects `style.get("name")` into a set; on the documents considered
here every leaf carries a `name` attribute, so no `None` occurs and
collecting the present names is faithful. -/
def wordsStyleNames (lexer_styles : Element) : List String :=
  (get_lexer_types lexer_styles).flatMap
    (fun lt => (lt.findall "WordsStyle").filterMap (fun ws => ws.getAttr "name"))

/-- `get_distinct_style_names` (lines 143-155): the distinct `WordsStyle`
names, sorted. -/
def get_distinct_style_names (lexer_styles : Element) : List String :=
  sortedSet (wordsStyleNames lexer_styles)

/-- `get_distinct_missing_style_names` (lines 158-178): the set difference
between the distinct `WordsStyle` names of the source and the union of the
configured rules' name lists, sorted. -/
def get_distinct_missing_style_names (lexer_styles : Element)
    (styles : List Style) : List String :=
  sortedSet ((get_distinct_style_names lexer_styles).filter
    (fun n => !(styles.any (fun s => s.names.contains n))))

/-- All `WordsStyle` leaves of a document: the `WordsStyle` children of the
`LexerType` children of the first `LexerStyles` section. -/
def docWordsLeaves (root : Element) : List Element :=
  match root.find "LexerStyles" with
  | some ls => (get_lexer_types ls).flatMap get_words_styles
  | none => []

/-- All `WidgetStyle` leaves of a document: the `WidgetStyle` children of the
first `GlobalStyles` section. -/
def docWidgetLeaves (root : Element) : List Element :=
  match root.find "GlobalStyles" with
  | some gs => get_widget_styles gs
  | none => []

/-- A sample `WordsStyle` leaf with a pre-existing background color. -/
def fooLeaf : Element :=
  .mk "WordsStyle" [("name", "Foo"), ("bgColor", "$old")] []

/-- A sample document root with no `LexerStyles` section. -/
def emptyRoot : Element :=
  .mk "NotepadPlus" [] []

/-- A sample well-formed document root with both required sections. -/
def sampleRoot : Element :=
  .mk "NotepadPlus" []
    [ .mk "LexerStyles" []
        [ .mk "LexerType" [("name", "python")]
            [ .mk "WordsStyle" [("name", "Keyword")] [] ] ],
      .mk "GlobalStyles" []
        [ .mk "WidgetStyle" [("name", "Global")] [] ] ]

/-- A sample `LexerStyles` section with `WordsStyle` names A, B, C, A. -/
def sampleLexerStyles : Element :=
  .mk "LexerStyles" []
    [ .mk "LexerType" [("name", "python")]
        [ .mk "WordsStyle" [("name", "A")] [],
          .mk "WordsStyle" [("name", "B")] [] ],
      .mk "LexerType" [("name", "lua")]
        [ .mk "WordsStyle" [("name", "C")] [],
          .mk "WordsStyle" [("name", "A")] [] ] ]

/-- A sample valid style rule. -/
def sampleRule : Style :=
  { names := ["a"], fgColor := some "$x", bgColor := none }

/-- A sample rule covering names A and B. -/
def ruleAB : Style :=
  { names := ["A", "B"], fgColor := some "$base", bgColor := none }
theorem lexLe_eq_true_iff :
    ∀ as bs : List Char, lexLe as bs = true ↔ ¬ List.Lex (· < ·) bs as
  | [], bs => by
    constructor
    · intro _ h
      cases h
    · intro _
      rfl
  | _ :: _, [] => by
    constructor
    · intro h
      simp [lexLe] at h
    · intro h
      exact absurd List.Lex.nil h
  | a :: as, b :: bs => by
    by_cases hab : a < b
    · simp only [lexLe, if_pos hab, true_iff]
      intro h
      cases h with
      | cons h' => exact lt_irrefl a hab
      | rel h' => exact lt_asymm hab h'
    · by_cases hba : b < a
      · simp only [lexLe, if_neg hab, if_pos hba]
        constructor
        · intro h
          cases h
        · intro h
          exact absurd (List.Lex.rel hba) h
      · have hba' : a = b := le_antisymm (le_of_not_lt hba) (le_of_not_lt hab)
        subst hba'
        simp only [lexLe, if_neg hab, if_neg hba]
        rw [lexLe_eq_true_iff as bs]
        exact not_congr List.Lex.cons_iff.symm

/-- `strLe` agrees with Mathlib's linear order on `String`. -/
theorem strLe_eq_true_iff (a b : String) : strLe a b = true ↔ a ≤ b := by
  rw [String.le_iff_toList_le, ← not_lt]
  exact lexLe_eq_true_iff a.data b.data

instance : IsTotal String (fun a b => strLe a b = true) :=
  ⟨fun a b => by
    rcases le_total a b with h | h
    · exact Or.inl ((strLe_eq_true_iff a b).mpr h)
    · exact Or.inr ((strLe_eq_true_iff b a).mpr h)⟩

instance : IsTrans String (fun a b => strLe a b = true) :=
  ⟨fun a b c hab hbc =>
    (strLe_eq_true_iff a c).mpr
      (le_trans ((strLe_eq_true_iff a b).mp hab) ((strLe_eq_true_iff b c).mp hbc))⟩

instance : IsAntisymm String (fun a b => strLe a b = true) :=
  ⟨fun a b hab hba =>
    le_antisymm ((strLe_eq_true_iff a b).mp hab) ((strLe_eq_true_iff b a).mp hba)⟩

theorem sortedSet_perm_dedup (l : List String) : List.Perm (sortedSet l) l.dedup :=
  List.perm_insertionSort _ _

theorem mem_sortedSet {x : String} {l : List String} :
    x ∈ sortedSet l ↔ x ∈ l := by
  rw [(sortedSet_perm_dedup l).mem_iff, List.mem_dedup]

theorem sortedSet_nodup (l : List String) : (sortedSet l).Nodup :=
  (sortedSet_perm_dedup l).nodup_iff.mpr l.nodup_dedup

/-- The output of `sortedSet` is strictly increasing: deduplicated and sorted
ascending. -/
theorem sortedSet_sorted_lt (l : List String) :
    (sortedSet l).Sorted (· < ·) := by
  have h₁ : (sortedSet l).Sorted (fun a b => strLe a b = true) :=
    List.sorted_insertionSort _ _
  have h₂ : (sortedSet l).Sorted (· ≤ ·) :=
    h₁.imp fun hab => (strLe_eq_true_iff _ _).mp hab
  exact h₂.lt_of_le (sortedSet_nodup l)

theorem sortedSet_eq_nil_iff {l : List String} : sortedSet l = [] ↔ l = [] := by
  rw [← List.length_eq_zero, (sortedSet_perm_dedup l).length_eq,
    List.length_eq_zero, List.dedup_eq_nil]

/-- A sorted deduplication is unchanged by sorting and deduplicating again. -/
theorem sortedSet_idem (l : List String) : sortedSet (sortedSet l) = sortedSet l := by
  nth_rewrite 1 [sortedSet]
  rw [List.dedup_eq_self.mpr (sortedSet_nodup l)]
  exact List.Sorted.insertionSort_eq (List.sorted_insertionSort _ _)

example : mkStyle ["b", "a", "b"] (some "$x") none =
    .ok { names := ["a", "b"], fgColor := some "$x", bgColor := none } := by rfl

example : mkStyle [] (some "$x") none = .error .validationError := by rfl

example : mkStyle ["a"] none none = .error .validationError := by rfl

example : mkStyle ["a"] (some "nope") none = .error .validationError := by rfl

example : mkStyle ["a"] (some "") none =
    .ok { names := ["a"], fgColor := some "", bgColor := none } := by rfl

theorem getPair_setPair (ps : List (String × String)) (k v k' : String) :
    getPair (setPair ps k v) k' = if k' = k then some v else getPair ps k' := by
  induction ps with
  | nil =>
    by_cases h : k' = k
    · subst h
      simp [setPair, getPair]
    · simp [setPair, getPair, h, Ne.symm h]
  | cons p rest ih =>
    obtain ⟨pk, pv⟩ := p
    by_cases hpk : pk = k
    · subst hpk
      by_cases h : k' = pk
      · subst h
        simp [setPair, getPair]
      · simp [setPair, getPair, h, Ne.symm h]
    · by_cases h : pk = k'
      · subst h
        simp [setPair, getPair, hpk, fun hh : pk = k => hpk hh]
      · simp [setPair, getPair, hpk, h, ih]

@[simp]
theorem Element.tag_setAttr (e : Element) (k v : String) :
    (e.setAttr k v).tag = e.tag := rfl

@[simp]
theorem Element.children_setAttr (e : Element) (k v : String) :
    (e.setAttr k v).children = e.children := rfl

theorem Element.getAttr_setAttr (e : Element) (k v k' : String) :
    (e.setAttr k v).getAttr k' = if k' = k then some v else e.getAttr k' :=
  getPair_setPair e.attrs k v k'

theorem update_fg_bg_color_of_ne (element : Element) (style_name : String)
    (new_fg_color new_bg_color : Option String)
    (h : element.getAttr "name" ≠ some style_name) :
    update_fg_bg_color element style_name new_fg_color new_bg_color = element := by
  simp [update_fg_bg_color, h]

@[simp]
theorem tag_update_fg_bg_color (element : Element) (style_name : String)
    (new_fg_color new_bg_color : Option String) :
    (update_fg_bg_color element style_name new_fg_color new_bg_color).tag =
      element.tag := by
  unfold update_fg_bg_color
  split
  · cases new_fg_color <;> cases new_bg_color <;> simp
  · rfl

@[simp]
theorem children_update_fg_bg_color (element : Element) (style_name : String)
    (new_fg_color new_bg_color : Option String) :
    (update_fg_bg_color element style_name new_fg_color new_bg_color).children =
      element.children := by
  unfold update_fg_bg_color
  split
  · cases new_fg_color <;> cases new_bg_color <;> simp
  · rfl

theorem getAttr_update_fg_bg_color_of_ne_key (element : Element)
    (style_name : String) (new_fg_color new_bg_color : Option String)
    (k : String) (hfg : k ≠ "fgColor") (hbg : k ≠ "bgColor") :
    (update_fg_bg_color element style_name new_fg_color new_bg_color).getAttr k =
      element.getAttr k := by
  unfold update_fg_bg_color
  split
  · cases new_fg_color <;> cases new_bg_color <;>
      simp [Element.getAttr_setAttr, hfg, hbg]
  · rfl

theorem name_update_fg_bg_color (element : Element) (style_name : String)
    (new_fg_color new_bg_color : Option String) :
    (update_fg_bg_color element style_name new_fg_color new_bg_color).getAttr
      "name" = element.getAttr "name" := by
  apply getAttr_update_fg_bg_color_of_ne_key <;> decide

theorem getAttr_update_fg_bg_color_fg (element : Element) (style_name : String)
    (new_fg_color new_bg_color : Option String)
    (h : element.getAttr "name" = some style_name) :
    (update_fg_bg_color element style_name new_fg_color new_bg_color).getAttr
      "fgColor" = new_fg_color.or (element.getAttr "fgColor") := by
  unfold update_fg_bg_color
  rw [if_pos (by simp [h])]
  cases new_fg_color <;> cases new_bg_color <;>
    simp [Element.getAttr_setAttr]

theorem getAttr_update_fg_bg_color_bg (element : Element) (style_name : String)
    (new_fg_color new_bg_color : Option String)
    (h : element.getAttr "name" = some style_name) :
    (update_fg_bg_color element style_name new_fg_color new_bg_color).getAttr
      "bgColor" = new_bg_color.or (element.getAttr "bgColor") := by
  unfold update_fg_bg_color
  rw [if_pos (by simp [h])]
  cases new_fg_color <;> cases new_bg_color <;>
    simp [Element.getAttr_setAttr]

theorem foldl_update_name (names : List String) (fg bg : Option String)
    (e : Element) :
    ((names.foldl (fun e' n => update_fg_bg_color e' n fg bg) e).getAttr
      "name") = e.getAttr "name" := by
  induction names generalizing e with
  | nil => rfl
  | cons n ns ih =>
    rw [List.foldl_cons, ih, name_update_fg_bg_color]

theorem Option.or_or_self (a b : Option String) : a.or (a.or b) = a.or b := by
  cases a <;> simp

theorem foldl_update_fg (names : List String) (fg bg : Option String)
    (e : Element) :
    ((names.foldl (fun e' n => update_fg_bg_color e' n fg bg) e).getAttr
      "fgColor") =
      if names.any (fun n => e.getAttr "name" == some n) then
        fg.or (e.getAttr "fgColor")
      else e.getAttr "fgColor" := by
  induction names generalizing e with
  | nil => rfl
  | cons n ns ih =>
    rw [List.foldl_cons, ih]
    by_cases hn : e.getAttr "name" = some n
    · rw [getAttr_update_fg_bg_color_fg e n fg bg hn,
        name_update_fg_bg_color e n fg bg]
      by_cases hns : (ns.any fun m => e.getAttr "name" == some m) = true
      · simp [hn, hns, Option.or_or_self]
      · simp [hn, hns, Option.or_or_self]
    · rw [update_fg_bg_color_of_ne e n fg bg hn]
      by_cases hns : (ns.any fun m => e.getAttr "name" == some m) = true
      · simp [hn, hns]
      · simp [hn, hns]

theorem foldl_update_bg (names : List String) (fg bg : Option String)
    (e : Element) :
    ((names.foldl (fun e' n => update_fg_bg_color e' n fg bg) e).getAttr
      "bgColor") =
      if names.any (fun n => e.getAttr "name" == some n) then
        bg.or (e.getAttr "bgColor")
      else e.getAttr "bgColor" := by
  induction names generalizing e with
  | nil => rfl
  | cons n ns ih =>
    rw [List.foldl_cons, ih]
    by_cases hn : e.getAttr "name" = some n
    · rw [getAttr_update_fg_bg_color_bg e n fg bg hn,
        name_update_fg_bg_color e n fg bg]
      by_cases hns : (ns.any fun m => e.getAttr "name" == some m) = true
      · simp [hn, hns, Option.or_or_self]
      · simp [hn, hns, Option.or_or_self]
    · rw [update_fg_bg_color_of_ne e n fg bg hn]
      by_cases hns : (ns.any fun m => e.getAttr "name" == some m) = true
      · simp [hn, hns]
      · simp [hn, hns]

theorem foldl_update_of_no_match (names : List String) (fg bg : Option String)
    (e : Element)
    (h : (names.any fun n => e.getAttr "name" == some n) = false) :
    names.foldl (fun e' n => update_fg_bg_color e' n fg bg) e = e := by
  induction names with
  | nil => rfl
  | cons n ns ih =>
    rw [List.any_cons, Bool.or_eq_false_iff] at h
    rw [List.foldl_cons,
      update_fg_bg_color_of_ne e n fg bg (by simpa using h.1)]
    exact ih h.2

theorem applyOneStyle_of_not_matches (s : Style) (e : Element)
    (h : matchesStyle e s = false) : applyOneStyle s e = e :=
  foldl_update_of_no_match s.names s.fgColor s.bgColor e h

theorem name_applyOneStyle (s : Style) (e : Element) :
    (applyOneStyle s e).getAttr "name" = e.getAttr "name" :=
  foldl_update_name s.names s.fgColor s.bgColor e

theorem matchesStyle_applyOneStyle (s s' : Style) (e : Element) :
    matchesStyle (applyOneStyle s e) s' = matchesStyle e s' := by
  unfold matchesStyle
  rw [name_applyOneStyle]

theorem getAttr_applyOneStyle_fg (s : Style) (e : Element) :
    (applyOneStyle s e).getAttr "fgColor" =
      if matchesStyle e s then s.fgColor.or (e.getAttr "fgColor")
      else e.getAttr "fgColor" :=
  foldl_update_fg s.names s.fgColor s.bgColor e

theorem getAttr_applyOneStyle_bg (s : Style) (e : Element) :
    (applyOneStyle s e).getAttr "bgColor" =
      if matchesStyle e s then s.bgColor.or (e.getAttr "bgColor")
      else e.getAttr "bgColor" :=
  foldl_update_bg s.names s.fgColor s.bgColor e

/-- A leaf matching none of the configured styles is returned unchanged by the
inner loops of the build. -/
theorem applyStylesToLeaf_of_no_match (styles : List Style) (e : Element)
    (h : ∀ s ∈ styles, matchesStyle e s = false) :
    applyStylesToLeaf styles e = e := by
  unfold applyStylesToLeaf
  induction styles with
  | nil => rfl
  | cons s ss ih =>
    rw [List.foldl_cons, applyOneStyle_of_not_matches s e (h s (by simp))]
    exact ih fun s' hs' => h s' (by simp [hs'])

theorem getLast?_cons_eq (v : String) (l : List String) :
    (v :: l).getLast? =
      match l.getLast? with
      | some w => some w
      | none => some v := by
  cases l with
  | nil => rfl
  | cons w ws =>
    rw [List.getLast?_cons_cons]
    obtain ⟨x, hx⟩ := Option.isSome_iff_exists.mp
      (List.getLast?_isSome.mpr (List.cons_ne_nil w ws))
    rw [hx]

theorem finalColor_eq_getLast (orig : Option String)
    (cs : List (Option String)) :
    finalColor orig cs =
      match (cs.filterMap id).getLast? with
      | some v => some v
      | none => orig := by
  induction cs generalizing orig with
  | nil => rfl
  | cons c cs' ih =>
    cases c with
    | none =>
      show finalColor orig cs' = _
      rw [ih]
      rfl
    | some v =>
      show finalColor (some v) cs' = _
      rw [ih, List.filterMap_cons]
      simp only [Option.or_none, id]
      rw [getLast?_cons_eq]
      cases (cs'.filterMap id).getLast? <;> rfl

theorem name_applyStylesToLeaf (styles : List Style) (e : Element) :
    (applyStylesToLeaf styles e).getAttr "name" = e.getAttr "name" := by
  unfold applyStylesToLeaf
  induction styles generalizing e with
  | nil => rfl
  | cons s ss ih =>
    rw [List.foldl_cons, ih, name_applyOneStyle]

theorem getAttr_applyStylesToLeaf_fg (styles : List Style) (e : Element) :
    (applyStylesToLeaf styles e).getAttr "fgColor" =
      finalColor (e.getAttr "fgColor")
        ((styles.filter (fun s => matchesStyle e s)).map (·.fgColor)) := by
  induction styles generalizing e with
  | nil => rfl
  | cons s ss ih =>
    show (applyStylesToLeaf ss (applyOneStyle s e)).getAttr "fgColor" = _
    rw [ih]
    by_cases hs : matchesStyle e s = true
    · have hms : ∀ s', matchesStyle (applyOneStyle s e) s' = matchesStyle e s' :=
        fun s' => matchesStyle_applyOneStyle s s' e
      simp only [hms, List.filter_cons, hs, if_pos, List.map_cons]
      rw [getAttr_applyOneStyle_fg, if_pos hs]
      rfl
    · rw [applyOneStyle_of_not_matches s e (by simpa using hs)]
      simp only [List.filter_cons, hs]
      rfl

theorem getAttr_applyStylesToLeaf_bg (styles : List Style) (e : Element) :
    (applyStylesToLeaf styles e).getAttr "bgColor" =
      finalColor (e.getAttr "bgColor")
        ((styles.filter (fun s => matchesStyle e s)).map (·.bgColor)) := by
  induction styles generalizing e with
  | nil => rfl
  | cons s ss ih =>
    show (applyStylesToLeaf ss (applyOneStyle s e)).getAttr "bgColor" = _
    rw [ih]
    by_cases hs : matchesStyle e s = true
    · have hms : ∀ s', matchesStyle (applyOneStyle s e) s' = matchesStyle e s' :=
        fun s' => matchesStyle_applyOneStyle s s' e
      simp only [hms, List.filter_cons, hs, if_pos, List.map_cons]
      rw [getAttr_applyOneStyle_bg, if_pos hs]
      rfl
    · rw [applyOneStyle_of_not_matches s e (by simpa using hs)]
      simp only [List.filter_cons, hs]
      rfl

@[simp]
theorem Element.tag_mapChildrenWithTag (e : Element) (t : String)
    (f : Element → Element) : (e.mapChildrenWithTag t f).tag = e.tag := rfl

theorem tag_updateLexerStyles (styles : List Style) (e : Element) :
    (updateLexerStyles styles e).tag = e.tag := rfl

theorem tag_updateGlobalStyles (styles : List Style) (e : Element) :
    (updateGlobalStyles styles e).tag = e.tag := rfl

theorem find?_replaceFirstWithTag_ne (t t' : String) (hne : t' ≠ t)
    (f : Element → Element) (hf : ∀ c, (f c).tag = c.tag) (l : List Element) :
    (replaceFirstWithTag t f l).find? (fun c => c.tag == t') =
      l.find? (fun c => c.tag == t') := by
  induction l with
  | nil => rfl
  | cons c cs ih =>
    cases hc : c.tag == t with
    | true =>
      have hceq : c.tag = t := by simpa using hc
      have hct' : (c.tag == t') = false := by simp [hceq, Ne.symm hne]
      have hfct' : ((f c).tag == t') = false := by rw [hf c]; exact hct'
      simp [replaceFirstWithTag, hc, List.find?_cons, hct', hfct']
    | false =>
      cases hc' : c.tag == t' with
      | true => simp [replaceFirstWithTag, hc, List.find?_cons, hc']
      | false => simp [replaceFirstWithTag, hc, List.find?_cons, hc', ih]

theorem find?_replaceFirstWithTag_self (t : String) (f : Element → Element)
    (hf : ∀ c, (f c).tag = c.tag) (l : List Element) :
    (replaceFirstWithTag t f l).find? (fun c => c.tag == t) =
      (l.find? (fun c => c.tag == t)).map f := by
  induction l with
  | nil => rfl
  | cons c cs ih =>
    cases hc : c.tag == t with
    | true =>
      have hfct : ((f c).tag == t) = true := by rw [hf c]; exact hc
      simp [replaceFirstWithTag, hc, List.find?_cons, hfct]
    | false =>
      simp [replaceFirstWithTag, hc, List.find?_cons, ih]

theorem find_updateFirstChildWithTag_ne (e : Element) (t t' : String)
    (hne : t' ≠ t) (f : Element → Element) (hf : ∀ c, (f c).tag = c.tag) :
    (e.updateFirstChildWithTag t f).find t' = e.find t' :=
  find?_replaceFirstWithTag_ne t t' hne f hf e.children

theorem find_updateFirstChildWithTag_self (e : Element) (t : String)
    (f : Element → Element) (hf : ∀ c, (f c).tag = c.tag) :
    (e.updateFirstChildWithTag t f).find t = (e.find t).map f :=
  find?_replaceFirstWithTag_self t f hf e.children

theorem filter_map_tagged (l : List Element) (t : String)
    (f : Element → Element) (hf : ∀ c, (f c).tag = c.tag) :
    ((l.map fun c => if c.tag == t then f c else c).filter
      (fun c => c.tag == t)) = (l.filter (fun c => c.tag == t)).map f := by
  induction l with
  | nil => rfl
  | cons c cs ih =>
    cases hc : c.tag == t with
    | true =>
      have hceq : c.tag = t := by simpa using hc
      simpa [List.filter_cons, hceq, hf c] using ih
    | false =>
      have hcne : ¬ c.tag = t := by simpa using hc
      simpa [List.filter_cons, hcne] using ih

theorem findall_mapChildrenWithTag_self (e : Element) (t : String)
    (f : Element → Element) (hf : ∀ c, (f c).tag = c.tag) :
    (e.mapChildrenWithTag t f).findall t = (e.findall t).map f :=
  filter_map_tagged e.children t f hf

/-- Every style the constructor accepts is valid in the sense of
`validStyle`. -/
theorem validStyle_of_mkStyle {ns : List String} {fg bg : Option String}
    {s : Style} (h : mkStyle ns fg bg = .ok s) : validStyle s := by
  unfold mkStyle at h
  split_ifs at h with h1 h2 h3 h4
  have hs : { names := sortedSet ns, fgColor := fg, bgColor := bg : Style }
      = s := Except.ok.inj h
  subst hs
  unfold validStyle mkStyle
  rw [if_neg, if_neg (by simpa using h2), if_neg (by simpa using h3),
    if_neg (by simpa using h4)]
  · simp [sortedSet_idem]
  · simp only [List.isEmpty_iff, sortedSet_eq_nil_iff]
    intro hnil
    rw [hnil] at h1
    exact h1 (by simp)

theorem mapM_ok_of_ok {α β : Type} (f : α → Except Err β) (g : α → β)
    (l : List α) (h : ∀ a ∈ l, f a = .ok (g a)) :
    l.mapM f = .ok (l.map g) := by
  induction l with
  | nil => rfl
  | cons a as ih =>
    rw [List.mapM_cons, h a (by simp), ih fun a' ha' => h a' (by simp [ha'])]
    rfl

theorem recordToStyle_styleRecord (s : Style) :
    recordToStyle (styleRecord s) = s := rfl

/-- Saving a list of valid styles and loading the saved document returns the
same list. -/
theorem load_format_roundtrip (rules : List Style)
    (h : ∀ s ∈ rules, validStyle s) :
    load_styles_from_config (format_config_file rules) = .ok rules := by
  unfold load_styles_from_config format_config_file
  simp only [Option.getD_some]
  rw [mapM_ok_of_ok _ recordToStyle _ ?_]
  · rw [List.map_map]
    have : (recordToStyle ∘ styleRecord) = fun s => s :=
      funext fun s => recordToStyle_styleRecord s
    rw [this, List.map_id']
  · intro r hr
    obtain ⟨s, hs, rfl⟩ := List.mem_map.mp hr
    rw [recordToStyle_styleRecord]
    exact h s hs

theorem tag_foldl_update (names : List String) (fg bg : Option String)
    (e : Element) :
    (names.foldl (fun e' n => update_fg_bg_color e' n fg bg) e).tag = e.tag := by
  induction names generalizing e with
  | nil => rfl
  | cons n ns ih =>
    rw [List.foldl_cons, ih, tag_update_fg_bg_color]

theorem tag_applyOneStyle (s : Style) (e : Element) :
    (applyOneStyle s e).tag = e.tag :=
  tag_foldl_update s.names s.fgColor s.bgColor e

theorem tag_applyStylesToLeaf (styles : List Style) (e : Element) :
    (applyStylesToLeaf styles e).tag = e.tag := by
  induction styles generalizing e with
  | nil => rfl
  | cons s ss ih =>
    show (applyStylesToLeaf ss (applyOneStyle s e)).tag = e.tag
    rw [ih, tag_applyOneStyle]

/-- Claim C1 counterexample: the claim demands a validation error for every
present color string lacking the `$` sentinel, including the empty string;
but constructing a style whose `fgColor` is the present empty string (which
does not start with `$`) succeeds, because the Python truthiness test
`if self.fgColor` skips the sentinel check for `""`. -/
theorem claim_C1_counterexample :
    (["a"] : List String) ≠ [] ∧ (some "" : Option String) ≠ none ∧
    "".data.head? ≠ some '$' ∧
    mkStyle ["a"] (some "") none =
      .ok { names := ["a"], fgColor := some "", bgColor := none } :=
  ⟨by simp, by simp, by decide, by rfl⟩

/-- Claim C1 (amended): style construction fails with a validation error
whenever `names` is empty, or both colors are absent, or some present color
string is non-empty and does not start with `$`.  (The present empty-string
color is the one exception forced by the counterexample: the code's
truthiness test skips the sentinel check for it.) -/
theorem claim_C1 (names : List String) (fg bg : Option String)
    (h : names = [] ∨ (fg = none ∧ bg = none)
      ∨ (∃ c, fg = some c ∧ c ≠ "" ∧ c.data.head? ≠ some '$')
      ∨ (∃ c, bg = some c ∧ c ≠ "" ∧ c.data.head? ≠ some '$')) :
    mkStyle names fg bg = .error .validationError := by
  unfold mkStyle
  split_ifs with h1 h2 h3 h4
  · rfl
  · rfl
  · rfl
  · rfl
  · exfalso
    rcases h with hn | ⟨hfg, hbg⟩ | ⟨c, hc, hne, hhd⟩ | ⟨c, hc, hne, hhd⟩
    · exact h1 (by simp [hn])
    · exact h2 (by simp [hfg, hbg])
    · exact h3 (by simp [badColor, hc, hne, hhd])
    · exact h4 (by simp [badColor, hc, hne, hhd])

/-- Witness for claim C1 at a concrete input: the empty name list. -/
theorem claim_C1_witness :
    mkStyle [] (some "$x") none = .error .validationError :=
  claim_C1 [] (some "$x") none (Or.inl rfl)

/-- Claim C2: when the source document lacks the `LexerStyles` section or the
`GlobalStyles` section, the build fails with a structure error; the error
result models the exception raised before the final `tree.write`, so no
output document is produced. -/
theorem claim_C2 (styles : List Style) (root : Element)
    (h : root.find "LexerStyles" = none ∨ root.find "GlobalStyles" = none) :
    create_or_update_template styles root = .error .structureError := by
  unfold create_or_update_template
  rcases h with hL | hG
  · simp [get_lexer_styles, hL]
  · cases hL : root.find "LexerStyles" with
    | none => simp [get_lexer_styles, hL]
    | some ls =>
      have hg1 : (root.updateFirstChildWithTag "LexerStyles"
          (updateLexerStyles styles)).find "GlobalStyles" = none := by
        rw [find_updateFirstChildWithTag_ne root "LexerStyles" "GlobalStyles"
          (by decide) (updateLexerStyles styles) (fun c => rfl)]
        exact hG
      simp [get_lexer_styles, hL, get_global_styles, hg1]

/-- Witness for claim C2: a root with no sections at all. -/
theorem claim_C2_witness :
    emptyRoot.find "LexerStyles" = none ∧
    create_or_update_template [] emptyRoot = .error .structureError :=
  ⟨rfl, claim_C2 [] emptyRoot (Or.inl rfl)⟩

/-- Claim C3: on an element whose `name` attribute equals the candidate name,
the color updater with a present `newFg` and absent `newBg` sets `fgColor`
and leaves `bgColor` exactly as it was, and symmetrically with the roles of
the two colors swapped. -/
theorem claim_C3 (e : Element) (n f b : String)
    (h : e.getAttr "name" = some n) :
    ((update_fg_bg_color e n (some f) none).getAttr "fgColor" = some f ∧
      (update_fg_bg_color e n (some f) none).getAttr "bgColor" =
        e.getAttr "bgColor") ∧
    ((update_fg_bg_color e n none (some b)).getAttr "bgColor" = some b ∧
      (update_fg_bg_color e n none (some b)).getAttr "fgColor" =
        e.getAttr "fgColor") := by
  refine ⟨⟨?_, ?_⟩, ?_, ?_⟩
  · rw [getAttr_update_fg_bg_color_fg e n (some f) none h]
    rfl
  · rw [getAttr_update_fg_bg_color_bg e n (some f) none h]
    rfl
  · rw [getAttr_update_fg_bg_color_bg e n none (some b) h]
    rfl
  · rw [getAttr_update_fg_bg_color_fg e n none (some b) h]
    rfl

/-- Witness for claim C3: an element named Foo with a pre-existing
background, updated with a foreground only. -/
theorem claim_C3_witness :
    fooLeaf.getAttr "name" = some "Foo" ∧
    (update_fg_bg_color fooLeaf "Foo" (some "$base") none).getAttr "fgColor"
      = some "$base" ∧
    (update_fg_bg_color fooLeaf "Foo" (some "$base") none).getAttr "bgColor"
      = some "$old" := by
  refine ⟨rfl, (claim_C3 fooLeaf "Foo" "$base" "$b" rfl).1.1, ?_⟩
  rw [(claim_C3 fooLeaf "Foo" "$base" "$b" rfl).1.2]
  rfl

/-- Claim C7: on an element whose `name` attribute differs from the candidate
name, the color updater returns the element completely unchanged (and, being
total, raises nothing), whatever the two new colors are. -/
theorem claim_C7 (e : Element) (n : String) (fg bg : Option String)
    (h : e.getAttr "name" ≠ some n) :
    update_fg_bg_color e n fg bg = e :=
  update_fg_bg_color_of_ne e n fg bg h

/-- Witness for claim C7: an element named Foo against candidate Bar. -/
theorem claim_C7_witness :
    fooLeaf.getAttr "name" ≠ some "Bar" ∧
    update_fg_bg_color fooLeaf "Bar" (some "$x") (some "$y") = fooLeaf :=
  ⟨by decide, claim_C7 fooLeaf "Bar" (some "$x") (some "$y") (by decide)⟩

/-- Claim C10: a parsed configuration mapping without the `styles` key loads
as the empty rule list, with no error. -/
theorem claim_C10 (cfg : ConfigData) (h : cfg.styles = none) :
    load_styles_from_config cfg = .ok [] := by
  unfold load_styles_from_config
  rw [h]
  rfl

/-- Witness for claim C10. -/
theorem claim_C10_witness :
    ConfigData.styles { styles := none } = none ∧
    load_styles_from_config { styles := none } = .ok [] :=
  ⟨rfl, claim_C10 { styles := none } rfl⟩

/-- Claim C5: saving a list of valid style rules with the config writer and
loading the written document returns the same rule list (same name sets,
same colors, same order). -/
theorem claim_C5 (rules : List Style) (h : ∀ s ∈ rules, validStyle s) :
    load_styles_from_config (format_config_file rules) = .ok rules :=
  load_format_roundtrip rules h

/-- Witness for claim C5 on a one-rule list. -/
theorem claim_C5_witness :
    (∀ s ∈ [sampleRule], validStyle s) ∧
    load_styles_from_config (format_config_file [sampleRule]) =
      .ok [sampleRule] := by
  have hv : ∀ s ∈ [sampleRule], validStyle s := by
    intro s hs
    rw [List.mem_singleton] at hs
    subst hs
    rfl
  exact ⟨hv, claim_C5 [sampleRule] hv⟩

/-- Claim C8 counterexample: the claim calls an input valid as soon as
`names` is non-empty and at least one present color carries the `$` sentinel;
but when the other color is present without the sentinel the constructor
still fails, so such an input does not construct successfully. -/
theorem claim_C8_counterexample :
    (["a"] : List String) ≠ [] ∧ "$x".data.head? = some '$' ∧
    mkStyle ["a"] (some "$x") (some "zz") = .error .validationError :=
  ⟨by simp, rfl, rfl⟩

/-- Claim C8 (amended): when `names` is non-empty, at least one present color
carries the `$` sentinel, and no present color fails the truthiness-guarded
sentinel check (that is, every present non-empty color starts with `$`),
construction succeeds and stores the input names deduplicated and sorted
ascending. -/
theorem claim_C8 (names : List String) (fg bg : Option String)
    (h₁ : names ≠ [])
    (h₂ : (∃ c, fg = some c ∧ c.data.head? = some '$')
      ∨ (∃ c, bg = some c ∧ c.data.head? = some '$'))
    (h₃ : badColor fg = false) (h₄ : badColor bg = false) :
    ∃ ns, mkStyle names fg bg =
        .ok { names := ns, fgColor := fg, bgColor := bg } ∧
      ns.Sorted (· < ·) ∧ (∀ x, x ∈ ns ↔ x ∈ names) := by
  refine ⟨sortedSet names, ?_, sortedSet_sorted_lt names,
    fun x => mem_sortedSet⟩
  unfold mkStyle
  rw [if_neg (by simpa [List.isEmpty_iff] using h₁), if_neg ?_,
    if_neg (by simp [h₃]), if_neg (by simp [h₄])]
  rcases h₂ with ⟨c, hc, _⟩ | ⟨c, hc, _⟩ <;> subst hc <;> simp

/-- Witness for claim C8: two unsorted names and a foreground color. -/
theorem claim_C8_witness :
    (["b", "a"] : List String) ≠ [] ∧
    ∃ ns, mkStyle ["b", "a"] (some "$x") none =
        .ok { names := ns, fgColor := some "$x", bgColor := none } ∧
      ns.Sorted (· < ·) ∧ (∀ x, x ∈ ns ↔ x ∈ ["b", "a"]) :=
  ⟨by simp, claim_C8 ["b", "a"] (some "$x") none (by simp)
    (Or.inl ⟨"$x", rfl, rfl⟩) rfl rfl⟩

/-- Claim C9: the build's inner loops apply every configured style to every
leaf in configuration order, so each of the `fgColor` / `bgColor` attributes
ends up holding the color of the last matching rule whose corresponding
color is present, the original attribute value when no matching rule
provides one; earlier matching rules' colors are overwritten. -/
theorem claim_C9 (styles : List Style) (e : Element) :
    ((applyStylesToLeaf styles e).getAttr "fgColor" =
      match ((styles.filter (fun s => matchesStyle e s)).filterMap
          (fun s => s.fgColor)).getLast? with
      | some v => some v
      | none => e.getAttr "fgColor") ∧
    ((applyStylesToLeaf styles e).getAttr "bgColor" =
      match ((styles.filter (fun s => matchesStyle e s)).filterMap
          (fun s => s.bgColor)).getLast? with
      | some v => some v
      | none => e.getAttr "bgColor") := by
  constructor
  · rw [getAttr_applyStylesToLeaf_fg, finalColor_eq_getLast,
      List.filterMap_map]
    rfl
  · rw [getAttr_applyStylesToLeaf_bg, finalColor_eq_getLast,
      List.filterMap_map]
    rfl

/-- Claim C6: on a `LexerStyles` section all of whose `WordsStyle` leaves
carry a `name` attribute, the missing-style audit returns exactly the
strictly sorted list of the distinct `WordsStyle` names not contained in any
configured rule's name set; a name absent from the `WordsStyle` leaves (for
example one appearing only under `GlobalStyles`) never appears in the
result. -/
theorem claim_C6 (lexer_styles : Element) (styles : List Style)
    (_h : ∀ lt ∈ get_lexer_types lexer_styles,
      ∀ ws ∈ lt.findall "WordsStyle", (ws.getAttr "name").isSome = true) :
    (∀ n, n ∈ get_distinct_missing_style_names lexer_styles styles ↔
      (n ∈ wordsStyleNames lexer_styles ∧ ∀ s ∈ styles, n ∉ s.names)) ∧
    (get_distinct_missing_style_names lexer_styles styles).Sorted (· < ·) ∧
    ∀ n, n ∉ wordsStyleNames lexer_styles →
      n ∉ get_distinct_missing_style_names lexer_styles styles := by
  have hmem : ∀ n, n ∈ get_distinct_missing_style_names lexer_styles styles ↔
      (n ∈ wordsStyleNames lexer_styles ∧ ∀ s ∈ styles, n ∉ s.names) := by
    intro n
    unfold get_distinct_missing_style_names
    rw [mem_sortedSet, List.mem_filter]
    unfold get_distinct_style_names
    rw [mem_sortedSet]
    constructor
    · rintro ⟨hmem, hconf⟩
      refine ⟨hmem, ?_⟩
      rw [Bool.not_eq_true', List.any_eq_false] at hconf
      intro s hs hn
      exact absurd (List.elem_iff.mpr hn) (by simpa using hconf s hs)
    · rintro ⟨hmem, hconf⟩
      refine ⟨hmem, ?_⟩
      rw [Bool.not_eq_true', List.any_eq_false]
      intro s hs
      simpa using fun hn => hconf s hs (List.elem_iff.mp hn)
  exact ⟨hmem, sortedSet_sorted_lt _,
    fun n hn hmem' => hn ((hmem n).mp hmem').1⟩

/-- Witness for claim C6: names A, B, C, A in the source section and one rule
covering A and B; the audit reports exactly C. -/
theorem claim_C6_witness :
    (∀ lt ∈ get_lexer_types sampleLexerStyles,
      ∀ ws ∈ lt.findall "WordsStyle", (ws.getAttr "name").isSome = true) ∧
    ("C" ∈ get_distinct_missing_style_names sampleLexerStyles [ruleAB] ↔
      ("C" ∈ wordsStyleNames sampleLexerStyles ∧
        ∀ s ∈ [ruleAB], "C" ∉ s.names)) ∧
    get_distinct_missing_style_names sampleLexerStyles [ruleAB] = ["C"] := by
  refine ⟨?_, ?_, ?_⟩
  · decide
  · exact (claim_C6 sampleLexerStyles [ruleAB] (by decide)).1 "C"
  · rfl

/-- Claim C4: when both required sections are present, the build succeeds,
maps every `WordsStyle` and `WidgetStyle` leaf (in position) through the
style-application loop, and that loop is the identity on every leaf whose
`name` attribute matches no name of any configured rule - so unmatched
leaves keep all their attributes unchanged and cause no error. -/
theorem claim_C4 (styles : List Style) (root : Element)
    (hL : (root.find "LexerStyles").isSome = true)
    (hG : (root.find "GlobalStyles").isSome = true) :
    ∃ out, create_or_update_template styles root = .ok out ∧
      docWordsLeaves out =
        (docWordsLeaves root).map (applyStylesToLeaf styles) ∧
      docWidgetLeaves out =
        (docWidgetLeaves root).map (applyStylesToLeaf styles) ∧
      ∀ e, (∀ s ∈ styles, matchesStyle e s = false) →
        applyStylesToLeaf styles e = e := by
  obtain ⟨ls, hls⟩ := Option.isSome_iff_exists.mp hL
  obtain ⟨gs, hgs⟩ := Option.isSome_iff_exists.mp hG
  have htagL : ∀ c, (updateLexerStyles styles c).tag = c.tag := fun c => rfl
  have htagG : ∀ c, (updateGlobalStyles styles c).tag = c.tag := fun c => rfl
  have htagLT : ∀ c, (updateLexerType styles c).tag = c.tag := fun c => rfl
  have htagLeaf : ∀ c, (applyStylesToLeaf styles c).tag = c.tag :=
    tag_applyStylesToLeaf styles
  have hfG1 : (root.updateFirstChildWithTag "LexerStyles"
      (updateLexerStyles styles)).find "GlobalStyles" = some gs := by
    rw [find_updateFirstChildWithTag_ne root "LexerStyles" "GlobalStyles"
      (by decide) (updateLexerStyles styles) htagL]
    exact hgs
  refine ⟨(root.updateFirstChildWithTag "LexerStyles"
      (updateLexerStyles styles)).updateFirstChildWithTag "GlobalStyles"
      (updateGlobalStyles styles), ?_, ?_, ?_,
    fun e he => applyStylesToLeaf_of_no_match styles e he⟩
  · unfold create_or_update_template
    simp [get_lexer_styles, hls, get_global_styles, hfG1]
  · have hfL_out : ((root.updateFirstChildWithTag "LexerStyles"
        (updateLexerStyles styles)).updateFirstChildWithTag "GlobalStyles"
        (updateGlobalStyles styles)).find "LexerStyles"
        = some (updateLexerStyles styles ls) := by
      rw [find_updateFirstChildWithTag_ne _ "GlobalStyles" "LexerStyles"
        (by decide) (updateGlobalStyles styles) htagG,
        find_updateFirstChildWithTag_self root "LexerStyles"
        (updateLexerStyles styles) htagL, hls]
      rfl
    unfold docWordsLeaves
    rw [hfL_out, hls]
    show (get_lexer_types (updateLexerStyles styles ls)).flatMap
        get_words_styles =
      List.map (applyStylesToLeaf styles)
        ((get_lexer_types ls).flatMap get_words_styles)
    have h1 : get_lexer_types (updateLexerStyles styles ls) =
        (get_lexer_types ls).map (updateLexerType styles) :=
      findall_mapChildrenWithTag_self ls "LexerType"
        (updateLexerType styles) htagLT
    rw [h1, List.flatMap_map, List.map_flatMap]
    refine List.flatMap_congr ?_  -- pointwise equality of the two flatMaps
    intro lt _
    exact findall_mapChildrenWithTag_self lt "WordsStyle"
      (applyStylesToLeaf styles) htagLeaf
  · have hfG_out : ((root.updateFirstChildWithTag "LexerStyles"
        (updateLexerStyles styles)).updateFirstChildWithTag "GlobalStyles"
        (updateGlobalStyles styles)).find "GlobalStyles"
        = some (updateGlobalStyles styles gs) := by
      rw [find_updateFirstChildWithTag_self _ "GlobalStyles"
        (updateGlobalStyles styles) htagG, hfG1]
      rfl
    unfold docWidgetLeaves
    rw [hfG_out, hgs]
    show get_widget_styles (updateGlobalStyles styles gs) =
      List.map (applyStylesToLeaf styles) (get_widget_styles gs)
    exact findall_mapChildrenWithTag_self gs "WidgetStyle"
      (applyStylesToLeaf styles) htagLeaf

/-- Witness for claim C4 on the sample document, with a rule whose names
match no leaf. -/
theorem claim_C4_witness :
    (sampleRoot.find "LexerStyles").isSome = true ∧
    (sampleRoot.find "GlobalStyles").isSome = true ∧
    ∃ out, create_or_update_template [sampleRule] sampleRoot = .ok out ∧
      docWordsLeaves out =
        (docWordsLeaves sampleRoot).map (applyStylesToLeaf [sampleRule]) ∧
      docWidgetLeaves out =
        (docWidgetLeaves sampleRoot).map (applyStylesToLeaf [sampleRule]) ∧
      ∀ e, (∀ s ∈ [sampleRule], matchesStyle e s = false) →
        applyStylesToLeaf [sampleRule] e = e :=
  ⟨rfl, rfl, claim_C4 [sampleRule] sampleRoot rfl rfl⟩
